import Mathlib

/-! Formal model of the video-speed-controller userscript
(src/video-speed-controller/video-speed-controller.user.js, version 1.1.1).

JavaScript numbers are modelled by the type JSNum: NaN, the two infinities,
and finite values carried as rationals.  Every finite IEEE-754 double is a
rational with a terminating decimal expansion, so the rationals
over-approximate the actual value space; theorems that need the
print/parse round trip carry the decidable side condition IsDecimalRat,
which holds for every value a JS double can take.

Number-to-string conversion (Number.prototype.toString) and parseFloat are
modelled on decimal digit strings.  Exponent notation, which toString only
emits for magnitudes >= 1e21 or < 1e-7 and which the script never produces
or consumes, is not modelled; within plain decimal notation the pair of
functions below mirrors the JS pair (sign, optional fraction, the string
"Infinity", NaN on parse failure, longest-valid-prefix parsing).

DOM state is modelled by explicit structures: Video for a video element
(live playbackRate, the dataset.preferredRate string, paused flag, src,
the "enhanced" marker class, and its bounding client rect), ControllerData
for one entry of the activeVideos map (visibility class, hide-timer,
sticky flag, dropdown state, custom-input value, panel identity), and
PageState for the whole page (videos, the activeVideos registration list,
the set of panels attached to document.body).  Timers are modelled by the
pending countdown value plus an explicit "the timer fires" transition. -/

/-- JavaScript number values: NaN, +Infinity, -Infinity, or a finite value
(carried as a rational; finite doubles are a subset of the rationals). -/
inductive JSNum : Type where
  | nan : JSNum
  | posInf : JSNum
  | negInf : JSNum
  | num : ℚ → JSNum
deriving DecidableEq

namespace JSNum

/-- JS isNaN on a number value. -/
def isNaN : JSNum → Bool
  | nan => true
  | _ => false

/-- JS strict equality on two number values (NaN compares unequal to
everything, including itself). -/
def jsEqNum : JSNum → JSNum → Bool
  | nan, _ => false
  | _, nan => false
  | posInf, posInf => true
  | negInf, negInf => true
  | num a, num b => decide (a = b)
  | _, _ => false

/-- JS comparison a <= b on number values (false whenever either side is
NaN). -/
def jsLe : JSNum → JSNum → Bool
  | nan, _ => false
  | _, nan => false
  | negInf, _ => true
  | _, posInf => true
  | posInf, _ => false
  | _, negInf => false
  | num a, num b => decide (a ≤ b)

/-- JS comparison a < b on number values (false whenever either side is
NaN). -/
def jsLt : JSNum → JSNum → Bool
  | nan, _ => false
  | _, nan => false
  | _, negInf => false
  | negInf, _ => true
  | posInf, _ => false
  | _, posInf => true
  | num a, num b => decide (a < b)

end JSNum

/-- The ten decimal digit characters. -/
def digitChar (d : ℕ) : Char :=
  match d with
  | 0 => '0' | 1 => '1' | 2 => '2' | 3 => '3' | 4 => '4'
  | 5 => '5' | 6 => '6' | 7 => '7' | 8 => '8' | _ => '9'

/-- Little-endian decimal digits of a natural number (empty for 0). -/
def natDigitsLE : ℕ → List ℕ
  | 0 => []
  | n + 1 => ((n + 1) % 10) :: natDigitsLE ((n + 1) / 10)
decreasing_by exact Nat.div_lt_self (Nat.succ_pos n) (by norm_num)

/-- Value of a little-endian digit list. -/
def valLE : List ℕ → ℕ
  | [] => 0
  | d :: t => d + 10 * valLE t

/-- Value of a big-endian digit list. -/
def valBE : List ℕ → ℕ
  | [] => 0
  | d :: t => d * 10 ^ t.length + valBE t

/-- Big-endian decimal digits of a natural number, with 0 printed as the
single digit 0 (matching how JS prints the integer or fraction part). -/
def digitsBE (m : ℕ) : List ℕ :=
  if m = 0 then [0] else (natDigitsLE m).reverse

/-- Smallest exponent k in 0..d with d dividing 10^k when one exists
(i.e. when d has no prime factors besides 2 and 5), d otherwise.  Used to
pick how many fraction digits to print for a rational with denominator
d. -/
def decExp (d : ℕ) : ℕ :=
  ((List.range (d + 1)).find? (fun k => 10 ^ k % d == 0)).getD d

/-- The finite JS numbers: rationals with a terminating decimal expansion.
Every finite IEEE-754 double satisfies this (doubles are dyadic
rationals).  Decidable, so witnesses can check it by evaluation. -/
def IsDecimalRat (q : ℚ) : Prop :=
  10 ^ decExp q.den % q.den = 0

instance (q : ℚ) : Decidable (IsDecimalRat q) := by
  unfold IsDecimalRat; infer_instance

/-- Decimal printing of a rational, modelling Number.prototype.toString on
the plain-decimal range: optional minus sign, integer digits, and a
fraction part exactly when the value is not an integer. -/
def ratToString (q : ℚ) : String :=
  let k := decExp q.den
  let n := (⌊|q| * 10 ^ k⌋).toNat
  let intPart := digitsBE (n / 10 ^ k)
  let fracRaw := digitsBE (n % 10 ^ k)
  let chars :=
    (if q < 0 then ['-'] else []) ++
    intPart.map digitChar ++
    (if k = 0 then [] else
      '.' :: (List.replicate (k - fracRaw.length) 0 ++ fracRaw).map digitChar)
  String.mk chars

/-- JS Number.prototype.toString on a number value. -/
def JSNum.jsToString : JSNum → String
  | JSNum.nan => "NaN"
  | JSNum.posInf => "Infinity"
  | JSNum.negInf => "-Infinity"
  | JSNum.num q => ratToString q

/-- Whitespace characters skipped by parseFloat. -/
def isSpaceChar (c : Char) : Bool :=
  c = ' ' || c = '\t' || c = '\n' || c = '\r'

/-- Consume a maximal run of leading decimal digits: returns their value,
how many there were, and the rest of the input. -/
def parseDigitsBE : List Char → ℕ × ℕ × List Char
  | [] => (0, 0, [])
  | c :: t =>
    if c.isDigit then
      let r := parseDigitsBE t
      ((c.toNat - 48) * 10 ^ r.2.1 + r.1, r.2.1 + 1, r.2.2)
    else (0, 0, c :: t)

/-- Strip an optional leading sign, returning whether it was a minus. -/
def splitSign (cs : List Char) : Bool × List Char :=
  match cs with
  | [] => (false, [])
  | c :: t =>
    if c = '-' then (true, t)
    else if c = '+' then (false, t)
    else (false, c :: t)

/-- JS parseFloat on a character list: skip whitespace, optional sign,
then either the literal "Infinity" or digits with an optional fraction;
NaN when no number can be parsed.  Longest-valid-prefix semantics:
trailing garbage is ignored. -/
def jsParseFloatList (cs : List Char) : JSNum :=
  let cs1 := cs.dropWhile isSpaceChar
  let sc := splitSign cs1
  if sc.2.take 8 = ['I', 'n', 'f', 'i', 'n', 'i', 't', 'y'] then
    if sc.1 then JSNum.negInf else JSNum.posInf
  else
    let p := parseDigitsBE sc.2
    match p.2.2 with
    | '.' :: rest2 =>
      let f := parseDigitsBE rest2
      if p.2.1 = 0 ∧ f.2.1 = 0 then JSNum.nan
      else
        let mag : ℚ := ((p.1 * 10 ^ f.2.1 + f.1 : ℕ) : ℚ) / ((10 ^ f.2.1 : ℕ) : ℚ)
        JSNum.num (if sc.1 then -mag else mag)
    | _ =>
      if p.2.1 = 0 then JSNum.nan
      else JSNum.num (if sc.1 then -(p.1 : ℚ) else (p.1 : ℚ))

/-- JS parseFloat on a string. -/
def jsParseFloat (s : String) : JSNum :=
  jsParseFloatList s.data

/-- Model of JS String.prototype.startsWith. -/
def strStartsWith (s pre : String) : Bool :=
  decide (s.data.take pre.data.length = pre.data)

/-- Bounding client rectangle of a video element. -/
structure Rect where
  left : ℚ
  top : ℚ
  right : ℚ
  bottom : ℚ
deriving DecidableEq

/-- A video element: the fields of HTMLVideoElement the script reads or
writes.  preferredRateStr is the dataset.preferredRate string (none when
the attribute is absent); enhanced is membership of the script's
"enhanced" marker class; id is element identity (used as the key of the
activeVideos map). -/
structure Video where
  id : ℕ
  playbackRate : JSNum
  preferredRateStr : Option String
  paused : Bool
  src : Option String
  enhanced : Bool
  rect : Rect
deriving DecidableEq

/-- The speed-selector dropdown: its option values in order and the index
of the selected option. -/
structure Selector where
  options : List String
  selectedIndex : ℕ
deriving DecidableEq

/-- One entry of the activeVideos map (the script's VideoControllerData):
the controller panel's visibility class, the pending hide-timer countdown
in milliseconds (none when no timer is pending), the sticky flag, the
dropdown, the custom speed input's value, and the identity of the panel
element owned by this registration. -/
structure ControllerData where
  visible : Bool
  hideTimer : Option ℕ
  isSticky : Bool
  selector : Selector
  customInputValue : String
  panelId : ℕ
deriving DecidableEq

/-- Option values of the dropdown the controller factory builds: the
preset speeds [0.1, 0.5, 1, 1.5, 2, 2.5, 3, 4] stringified, then the
synthetic "custom" entry (so "custom" sits at index 8). -/
def standardOptionValues : List String :=
  ["0.1", "0.5", "1", "1.5", "2", "2.5", "3", "4", "custom"]

/-- Setting selector.value: selects the first option with that exact
value.  In the script this is only done under a querySelector guard that
the option exists, so the no-match branch is unreachable there. -/
def selectorSetValue (sel : Selector) (v : String) : Selector :=
  match sel.options.findIdx? (fun o => o = v) with
  | some i => { sel with selectedIndex := i }
  | none => sel

/-- updateSpeedSelector (lines 269-285): select the first option whose
value parses to a number strictly equal to the rate; otherwise, if a
"custom" option exists, select it. -/
def updateSpeedSelector (sel : Selector) (rate : JSNum) : Selector :=
  match sel.options.findIdx? (fun o => JSNum.jsEqNum (jsParseFloat o) rate) with
  | some i => { sel with selectedIndex := i }
  | none =>
    if sel.options.contains "custom" then selectorSetValue sel "custom"
    else sel

/-- applyPlaybackRate (lines 237-262): reject NaN and rates <= 0 (JS
comparison, so -Infinity is rejected but +Infinity is not); otherwise set
the live rate, store rate.toString() in dataset.preferredRate, and if the
video has a registration reflect the rate into its dropdown and custom
input.  The video argument itself is always present in this model, so the
!video guard is omitted. -/
def applyPlaybackRate (v : Video) (reg : Option ControllerData) (rate : JSNum) :
    Video × Option ControllerData :=
  if rate.isNaN || JSNum.jsLe rate (JSNum.num 0) then (v, reg)
  else
    let v1 := { v with playbackRate := rate,
                       preferredRateStr := some rate.jsToString }
    match reg with
    | none => (v1, none)
    | some d =>
      let d1 := { d with selector := updateSpeedSelector d.selector rate,
                         customInputValue := rate.jsToString }
      (v1, some d1)

/-- The play-event handler installed on each managed video (lines
374-383): when a preferred rate is stored (non-empty string) and the live
rate differs from its parsed value under strict equality, force the live
rate back to the parsed value. -/
def playHandler (v : Video) : Video :=
  match v.preferredRateStr with
  | none => v
  | some s =>
    if s = "" then v
    else
      let saved := jsParseFloat s
      if JSNum.jsEqNum v.playbackRate saved then v
      else { v with playbackRate := saved }

/-- The 1000ms periodic check installed on each managed video (lines
385-394): same as the play handler but additionally a no-op while the
video is paused. -/
def intervalTick (v : Video) : Video :=
  match v.preferredRateStr with
  | none => v
  | some s =>
    if s = "" ∨ v.paused then v
    else
      let saved := jsParseFloat s
      if JSNum.jsEqNum v.playbackRate saved then v
      else { v with playbackRate := saved }

/-- Split a character list at dots, keeping empty segments (models
splitting a hostname into its dot-separated labels). -/
def splitOnDotChars : List Char → List (List Char)
  | [] => [[]]
  | c :: t =>
    let r := splitOnDotChars t
    if c = '.' then [] :: r
    else
      match r with
      | h :: t2 => (c :: h) :: t2
      | [] => [[c]]

/-- The dot-separated labels of a hostname. -/
def hostLabels (host : String) : List (List Char) :=
  splitOnDotChars host.data

/-- The site rule for primevideo.com (lines 53-63): attach a controller
only to videos whose src starts with "blob:", a missing src reading as the
empty string (the src || '' fallback). -/
def primeVideoShouldAddController (v : Video) : Bool :=
  let src := v.src.getD ""
  strStartsWith src "blob:"

/-- The siteRules table (lines 52-64): base domain to predicate; its only
key is primevideo.com. -/
def siteRules (domain : String) : Option (Video → Bool) :=
  if domain = "primevideo.com" then some primeVideoShouldAddController
  else none

/-- The regex ([^.]+\.[^.]+)$ of getCurrentSite (line 76), embedded as a
function on the hostname's labels.  A match of that regex must end at the
end of the string and contains exactly one dot with a nonempty dot-free
run on each side, so a match exists exactly when the hostname ends in two
nonempty labels, and the (leftmost, hence longest such) capture is the
last two labels joined by a dot. -/
def baseDomainMatch (host : String) : Option String :=
  match (hostLabels host).reverse with
  | last :: prev :: _ =>
    if last ≠ [] ∧ prev ≠ [] then some (String.mk (prev ++ '.' :: last))
    else none
  | _ => none

/-- getCurrentSite (lines 70-81): reduce the hostname to its base domain
(regex capture, or the full hostname when the regex fails) and return it
when the siteRules table has an entry for it. -/
def getCurrentSite (host : String) : Option String :=
  let baseDomain := (baseDomainMatch host).getD host
  if (siteRules baseDomain).isSome then some baseDomain else none

/-- shouldAddController (lines 90-98): on a page whose base domain has a
site rule, delegate to the rule's predicate; otherwise attach to every
video. -/
def shouldAddController (host : String) (v : Video) : Bool :=
  match getCurrentSite host with
  | some site =>
    match siteRules site with
    | some pred => pred v
    | none => true
  | none => true

/-- Modelled from the spec: the spec's own description of base-domain
normalization ("take the hostname, extract the last two dot-separated
labels; if the hostname has fewer than two labels, use it verbatim"),
written independently of the source regex for comparison with it. -/
def specBaseDomain (host : String) : String :=
  match (hostLabels host).reverse with
  | last :: prev :: _ => String.mk (prev ++ '.' :: last)
  | _ => host

/-- Whether the pointer position lies inside a bounding rectangle (lines
199-204): all four comparisons inclusive. -/
def isMouseOver (mx my : ℚ) (r : Rect) : Bool :=
  decide (r.left ≤ mx) && decide (mx ≤ r.right) &&
  decide (r.top ≤ my) && decide (my ≤ r.bottom)

/-- One registration's share of updateControllerVisibility (lines
196-229): pointer inside the video's rect shows the panel (idempotently)
and restarts the 2000ms hide timer; pointer outside hides it immediately
when it is visible and not sticky, and otherwise leaves it alone. -/
def updateOneVisibility (mx my : ℚ) (v : Video) (d : ControllerData) :
    ControllerData :=
  if isMouseOver mx my v.rect then
    { d with visible := true, hideTimer := some 2000 }
  else if d.visible && !d.isSticky then
    { d with visible := false }
  else d

/-- updateControllerVisibility: the per-registration update applied to
every entry of the activeVideos map on a mousemove dispatch. -/
def updateControllerVisibility (mx my : ℚ)
    (reg : List (Video × ControllerData)) : List (Video × ControllerData) :=
  reg.map (fun p => (p.1, updateOneVisibility mx my p.1 p.2))

/-- The hide timer firing (lines 216-220): remove the visible class unless
the registration is sticky at that moment. -/
def fireHideTimer (d : ControllerData) : ControllerData :=
  if d.isSticky then d else { d with visible := false }

/-- Look a video up in the activeVideos registration list by element
identity (Map.get). -/
def regFind (reg : List (Video × ControllerData)) (vid : ℕ) :
    Option (Video × ControllerData) :=
  reg.find? (fun p => p.1.id = vid)

/-- The panel's mouseenter handler (lines 397-400): set the registration's
sticky flag.  The lookup activeVideos.get(video) is unguarded, so when the
registration is missing the property write throws and the handler aborts
with no state change; that abort is the none branch here. -/
def controllerMouseEnter (vid : ℕ) (reg : List (Video × ControllerData)) :
    List (Video × ControllerData) :=
  match regFind reg vid with
  | none => reg
  | some _ =>
    reg.map (fun p => if p.1.id = vid then (p.1, { p.2 with isSticky := true }) else p)

/-- The panel's mouseleave handler (lines 402-406): clear the sticky flag,
then re-run updateControllerVisibility.  As with mouseenter, a missing
registration aborts the handler before either step. -/
def controllerMouseLeave (mx my : ℚ) (vid : ℕ)
    (reg : List (Video × ControllerData)) : List (Video × ControllerData) :=
  match regFind reg vid with
  | none => reg
  | some _ =>
    updateControllerVisibility mx my
      (reg.map (fun p => if p.1.id = vid then (p.1, { p.2 with isSticky := false }) else p))

/-- The one-second creation-flash timeout (lines 452-456): hide the panel
unless sticky.  The lookup is unguarded, so a missing registration aborts
the callback before the sticky read, leaving everything unchanged. -/
def flashTimeoutFire (vid : ℕ) (reg : List (Video × ControllerData)) :
    List (Video × ControllerData) :=
  match regFind reg vid with
  | none => reg
  | some pd =>
    if pd.2.isSticky then reg
    else reg.map (fun p => if p.1.id = vid then (p.1, { p.2 with visible := false }) else p)

/-- The shape of a MutationRecord as far as checkForSrcChanges inspects
it: its type, its attributeName, and whether its target is a video
element. -/
structure MutationInfo where
  mutType : String
  attrName : Option String
  targetIsVideo : Bool
deriving DecidableEq

/-- checkForSrcChanges (lines 520-555), acting on the mutation's target
video, its registration, and the list of panels attached to the document:
ignore everything except src-attribute mutations on already-enhanced
videos on a page with an active site rule; re-evaluate the matcher, and
either clear the enhanced marker and request a rescan (newly qualifies,
no registration) or remove the registration's panel from the document and
delete the registration, requesting no rescan (newly disqualifies). -/
def checkForSrcChanges (host : String) (m : MutationInfo) (v : Video)
    (reg : Option ControllerData) (panels : List ℕ) :
    Video × Option ControllerData × List ℕ × Bool :=
  if (getCurrentSite host).isNone ∨ m.mutType ≠ "attributes" ∨
      m.attrName ≠ some "src" ∨ m.targetIsVideo = false then
    (v, reg, panels, false)
  else if v.enhanced = false then (v, reg, panels, false)
  else
    let shouldHave := shouldAddController host v
    let hasController := reg.isSome
    if shouldHave && !hasController then
      ({ v with enhanced := false }, reg, panels, true)
    else if !shouldHave && hasController then
      match reg with
      | some d => (v, none, panels.erase d.panelId, false)
      | none => (v, none, panels, false)
    else (v, reg, panels, false)

/-- Whole-page state: the page's hostname, its video elements, the
activeVideos registration list (video id to controller data, in insertion
order), the panels currently attached to document.body, and a counter
supplying fresh panel identities. -/
structure PageState where
  host : String
  videos : List Video
  registry : List (ℕ × ControllerData)
  docPanels : List ℕ
  nextPanelId : ℕ
deriving DecidableEq

/-- A fresh registration as the controller factory builds it (lines
306-425): panel not yet visible, no hide timer, not sticky, the standard
dropdown with the preset 1 (index 2) selected, custom input "1.0". -/
def newControllerData (pid : ℕ) : ControllerData :=
  { visible := false, hideTimer := none, isSticky := false,
    selector := { options := standardOptionValues, selectedIndex := 2 },
    customInputValue := "1.0", panelId := pid }

/-- Map.set semantics on the registration list: overwrite the entry with
this key if present, else append. -/
def setRegistration (reg : List (ℕ × ControllerData)) (vid : ℕ)
    (d : ControllerData) : List (ℕ × ControllerData) :=
  if reg.any (fun p => p.1 = vid) then
    reg.map (fun p => if p.1 = vid then (vid, d) else p)
  else reg ++ [(vid, d)]

/-- Processing of one not-yet-enhanced video inside the scan (lines
294-457): videos the matcher rejects are only marked enhanced; accepted
videos are marked enhanced, get a panel appended to the document and a
fresh registration, adopt a pre-existing non-default live rate through
applyPlaybackRate, and have their panel flashed visible. -/
def processVideo (st : PageState) (v : Video) : PageState :=
  if !shouldAddController st.host v then
    { st with videos :=
        st.videos.map (fun w => if w.id = v.id then { w with enhanced := true } else w) }
  else
    let pid := st.nextPanelId
    let d0 := newControllerData pid
    let v1 := { v with enhanced := true }
    let res :=
      if !JSNum.jsEqNum v1.playbackRate (JSNum.num 1) then
        applyPlaybackRate v1 (some d0) v1.playbackRate
      else (v1, some d0)
    let v2 := res.1
    let d1 := (res.2).getD d0
    let d2 := { d1 with visible := true }
    { st with
      videos := st.videos.map (fun w => if w.id = v.id then v2 else w),
      registry := setRegistration st.registry v.id d2,
      docPanels := st.docPanels ++ [pid],
      nextPanelId := pid + 1 }

/-- initVideoSpeedControl (lines 291-458): scan the document for videos
without the enhanced marker and process each one. -/
def initVideoSpeedControl (s : PageState) : PageState :=
  (s.videos.filter (fun v => !v.enhanced)).foldl processVideo s

/-- Facts about the digit characters used by the printer: they are digits,
they decode back to the digit value, and they are none of the characters
the parser treats specially. -/
theorem digitChar_facts (d : ℕ) (hd : d < 10) :
    (digitChar d).isDigit = true ∧ (digitChar d).toNat - 48 = d ∧
    digitChar d ≠ '-' ∧ digitChar d ≠ '+' ∧ digitChar d ≠ 'I' ∧
    isSpaceChar (digitChar d) = false := by
  interval_cases d <;> exact ⟨rfl, rfl, by decide, by decide, by decide, rfl⟩

/-- The little-endian digits of m evaluate back to m. -/
theorem valLE_natDigitsLE (m : ℕ) : valLE (natDigitsLE m) = m := by
  induction m using Nat.strong_induction_on with
  | _ m ih =>
    cases m with
    | zero => simp [natDigitsLE, valLE]
    | succ n =>
      rw [natDigitsLE]
      simp only [valLE]
      rw [ih ((n + 1) / 10) (Nat.div_lt_self (Nat.succ_pos n) (by norm_num))]
      exact Nat.mod_add_div (n + 1) 10

/-- Every digit produced by natDigitsLE is below 10. -/
theorem natDigitsLE_lt (m : ℕ) : ∀ d ∈ natDigitsLE m, d < 10 := by
  induction m using Nat.strong_induction_on with
  | _ m ih =>
    cases m with
    | zero => simp [natDigitsLE]
    | succ n =>
      rw [natDigitsLE]
      intro d hd
      rcases List.mem_cons.mp hd with h | h
      · subst h; exact Nat.mod_lt _ (by norm_num)
      · exact ih ((n + 1) / 10) (Nat.div_lt_self (Nat.succ_pos n) (by norm_num)) d h

/-- m below 10^k has at most k digits. -/
theorem natDigitsLE_length_le (m : ℕ) :
    ∀ k, m < 10 ^ k → (natDigitsLE m).length ≤ k := by
  induction m using Nat.strong_induction_on with
  | _ m ih =>
    cases m with
    | zero => intro k _; simp [natDigitsLE]
    | succ n =>
      intro k hk
      rw [natDigitsLE]
      cases k with
      | zero => simp at hk
      | succ k' =>
        simp only [List.length_cons, Nat.add_le_add_iff_right]
        refine ih ((n + 1) / 10) (Nat.div_lt_self (Nat.succ_pos n) (by norm_num)) k' ?_
        rw [Nat.div_lt_iff_lt_mul (by norm_num : (0:ℕ) < 10)]
        calc n + 1 < 10 ^ (k' + 1) := hk
        _ = 10 ^ k' * 10 := by rw [pow_succ]

/-- Appending one digit multiplies the big-endian value by 10. -/
theorem valBE_append_single (xs : List ℕ) (d : ℕ) :
    valBE (xs ++ [d]) = 10 * valBE xs + d := by
  induction xs with
  | nil => simp [valBE]
  | cons x xs ih =>
    show x * 10 ^ (xs ++ [d]).length + valBE (xs ++ [d]) = _
    rw [ih, List.length_append]
    show x * 10 ^ (xs.length + 1) + (10 * valBE xs + d) =
      10 * (x * 10 ^ xs.length + valBE xs) + d
    ring

/-- Reversing little-endian digits gives their big-endian value. -/
theorem valBE_reverse (l : List ℕ) : valBE l.reverse = valLE l := by
  induction l with
  | nil => rfl
  | cons d t ih =>
    rw [List.reverse_cons, valBE_append_single, ih]
    simp [valLE]; ring

/-- Leading zeros do not change the big-endian value. -/
theorem valBE_replicate_zero (j : ℕ) (ds : List ℕ) :
    valBE (List.replicate j 0 ++ ds) = valBE ds := by
  induction j with
  | zero => simp
  | succ j ih => simp [List.replicate_succ, valBE, ih]

/-- The big-endian digit list of m evaluates back to m. -/
theorem valBE_digitsBE (m : ℕ) : valBE (digitsBE m) = m := by
  unfold digitsBE
  split
  · simp_all [valBE]
  · rw [valBE_reverse, valLE_natDigitsLE]

/-- digitsBE only produces digits below 10. -/
theorem digitsBE_lt (m : ℕ) : ∀ d ∈ digitsBE m, d < 10 := by
  unfold digitsBE
  split
  · simp
  · intro d hd
    exact natDigitsLE_lt m d (List.mem_reverse.mp hd)

/-- digitsBE never returns the empty list. -/
theorem digitsBE_ne_nil (m : ℕ) : digitsBE m ≠ [] := by
  unfold digitsBE
  split
  · simp
  · simp only [ne_eq, List.reverse_eq_nil_iff]
    cases h : natDigitsLE m with
    | nil =>
      intro _
      have := valLE_natDigitsLE m
      rw [h] at this
      simp [valLE] at this
      simp_all
    | cons a t => simp

/-- For m below 10^k with k at least 1, digitsBE m has at most k digits. -/
theorem digitsBE_length_le (m k : ℕ) (hm : m < 10 ^ k) (hk : 1 ≤ k) :
    (digitsBE m).length ≤ k := by
  unfold digitsBE
  split
  · simpa using hk
  · rw [List.length_reverse]
    exact natDigitsLE_length_le m k hm

/-- The digit parser consumes exactly a printed digit run: parsing the
characters of a digit list followed by a non-digit (or nothing) yields the
list's value, its length, and the untouched remainder. -/
theorem parseDigitsBE_append (ds : List ℕ) (rest : List Char)
    (hds : ∀ d ∈ ds, d < 10)
    (hrest : ∀ c, rest.head? = some c → c.isDigit = false) :
    parseDigitsBE (ds.map digitChar ++ rest) = (valBE ds, ds.length, rest) := by
  induction ds with
  | nil =>
    simp only [List.map_nil, List.nil_append]
    cases rest with
    | nil => rfl
    | cons c t =>
      have hc := hrest c rfl
      simp [parseDigitsBE, hc, valBE]
  | cons d ds ih =>
    have hd : d < 10 := hds d (by simp)
    obtain ⟨h1, h2, -⟩ := digitChar_facts d hd
    simp only [List.map_cons, List.cons_append, parseDigitsBE, h1, if_true,
      List.append_eq]
    rw [ih (fun x hx => hds x (by simp [hx]))]
    simp [valBE, h2, List.length_map]

/-- Parsing the printed decimal form of n / 10^k (integer digits of
n / 10^k, then, for k > 0, a dot and the k-digit zero-padded fraction
n % 10^k) recovers the value n / 10^k. -/
theorem parse_printed (n k : ℕ) :
    jsParseFloatList
      ((digitsBE (n / 10 ^ k)).map digitChar ++
       (if k = 0 then [] else
         '.' :: (List.replicate (k - (digitsBE (n % 10 ^ k)).length) 0 ++
                 digitsBE (n % 10 ^ k)).map digitChar)) =
      JSNum.num ((n : ℚ) / ((10 ^ k : ℕ) : ℚ)) := by
  obtain ⟨d0, ds0, hsplit⟩ := List.exists_cons_of_ne_nil (digitsBE_ne_nil (n / 10 ^ k))
  have hd0 : d0 < 10 := by
    have h := digitsBE_lt (n / 10 ^ k)
    rw [hsplit] at h
    exact h d0 (by simp)
  obtain ⟨hdig, hdec, hminus, hplus, hI, hsp⟩ := digitChar_facts d0 hd0
  set tail := (if k = 0 then ([] : List Char) else
    '.' :: (List.replicate (k - (digitsBE (n % 10 ^ k)).length) 0 ++
            digitsBE (n % 10 ^ k)).map digitChar) with htail
  have htailhead : ∀ c, tail.head? = some c → c.isDigit = false := by
    intro c hc
    rw [htail] at hc
    split at hc
    · simp at hc
    · simp only [List.head?_cons, Option.some.injEq] at hc
      rw [← hc]
      decide
  have hparse : parseDigitsBE ((digitsBE (n / 10 ^ k)).map digitChar ++ tail) =
      (n / 10 ^ k, (digitsBE (n / 10 ^ k)).length, tail) := by
    have h := parseDigitsBE_append (digitsBE (n / 10 ^ k)) tail
      (digitsBE_lt _) htailhead
    rw [valBE_digitsBE] at h
    exact h
  have hcons : (digitsBE (n / 10 ^ k)).map digitChar ++ tail =
      digitChar d0 :: (ds0.map digitChar ++ tail) := by
    rw [hsplit]; simp
  have hlenpos : (digitsBE (n / 10 ^ k)).length ≠ 0 := by
    rw [hsplit]; simp
  simp only [jsParseFloatList]
  rw [hcons]
  rw [List.dropWhile_cons]
  simp only [hsp, Bool.false_eq_true, if_false]
  have hsign : splitSign (digitChar d0 :: (ds0.map digitChar ++ tail)) =
      (false, digitChar d0 :: (ds0.map digitChar ++ tail)) := by
    simp [splitSign, hminus, hplus]
  rw [hsign]
  have hinf : ((digitChar d0 :: (ds0.map digitChar ++ tail)).take 8 =
      ['I', 'n', 'f', 'i', 'n', 'i', 't', 'y']) = False := by
    simp only [List.take_succ_cons, List.cons.injEq, eq_iff_iff, iff_false, not_and]
    intro h
    exact absurd h hI
  simp only [hinf, if_false]
  rw [← hcons, hparse]
  rw [htail]
  cases k with
  | zero =>
    simp only [if_pos rfl]
    simp only [pow_zero, Nat.div_one] at hlenpos ⊢
    simp [hlenpos, Nat.cast_one]
  | succ s =>
    simp only [Nat.succ_ne_zero, if_false]
    have hfl : (digitsBE (n % 10 ^ (s + 1))).length ≤ s + 1 :=
      digitsBE_length_le _ _ (Nat.mod_lt _ (pow_pos (by norm_num) _)) (by omega)
    have hfracparse : parseDigitsBE
        ((List.replicate ((s + 1) - (digitsBE (n % 10 ^ (s + 1))).length) 0 ++
          digitsBE (n % 10 ^ (s + 1))).map digitChar) =
        (n % 10 ^ (s + 1), s + 1, []) := by
      have h := parseDigitsBE_append
        (List.replicate ((s + 1) - (digitsBE (n % 10 ^ (s + 1))).length) 0 ++
          digitsBE (n % 10 ^ (s + 1))) []
        (by
          intro d hd
          rcases List.mem_append.mp hd with h | h
          · have := List.eq_of_mem_replicate h
            omega
          · exact digitsBE_lt _ d h)
        (by intro c hc; simp at hc)
      rw [List.append_nil] at h
      rw [valBE_replicate_zero, valBE_digitsBE] at h
      rw [h]
      have : ((s + 1) - (digitsBE (n % 10 ^ (s + 1))).length) +
          (digitsBE (n % 10 ^ (s + 1))).length = s + 1 := by omega
      simp [this]
    simp only [hfracparse]
    have hcond : ((digitsBE (n / 10 ^ (s + 1))).length = 0 ∧ s + 1 = 0) = False := by
      simp [hlenpos]
    simp only [hcond, if_false]
    congr 1
    have hrec : n / 10 ^ (s + 1) * 10 ^ (s + 1) + n % 10 ^ (s + 1) = n := by
      rw [mul_comm]
      exact Nat.div_add_mod n (10 ^ (s + 1))
    rw [hrec]
    simp

/-- Parsing the printed form of a positive rational yields the floor-based
value n / 10^k with n the floored scaled numerator; exactness and
positivity follow from this below. -/
theorem jsParseFloat_ratToString (q : ℚ) (hq : 0 < q) :
    jsParseFloat (ratToString q) =
      JSNum.num ((((⌊q * 10 ^ decExp q.den⌋).toNat : ℕ) : ℚ) /
        ((10 ^ decExp q.den : ℕ) : ℚ)) := by
  have hql : ¬ q < 0 := not_lt.mpr hq.le
  have habs : |q| = q := abs_of_pos hq
  unfold jsParseFloat ratToString
  simp only [habs, if_neg hql, List.nil_append]
  exact parse_printed ((⌊q * 10 ^ decExp q.den⌋).toNat) (decExp q.den)

/-- decExp either finds an exponent witnessing a terminating expansion or
falls back to the denominator itself. -/
theorem decExp_spec (d : ℕ) : d ∣ 10 ^ decExp d ∨ decExp d = d := by
  unfold decExp
  cases h : (List.range (d + 1)).find? (fun k => 10 ^ k % d == 0) with
  | none => simp
  | some k =>
    have hk := List.find?_some h
    simp only [beq_iff_eq] at hk
    simp only [Option.getD_some]
    exact Or.inl (Nat.dvd_of_mod_eq_zero hk)

/-- The printing exponent always scales past the denominator. -/
theorem den_le_pow_decExp (q : ℚ) : q.den ≤ 10 ^ decExp q.den := by
  rcases decExp_spec q.den with h | h
  · exact Nat.le_of_dvd (pow_pos (by norm_num) _) h
  · rw [h]
    exact (Nat.lt_pow_self (by norm_num) q.den).le

/-- For positive q, the scaled floor is at least 1. -/
theorem floor_scaled_pos (q : ℚ) (hq : 0 < q) :
    1 ≤ ⌊q * 10 ^ decExp q.den⌋ := by
  rw [Int.le_floor]
  have hnum : (1 : ℤ) ≤ q.num := by
    have := Rat.num_pos.mpr hq
    omega
  have hden : (0 : ℚ) < (q.den : ℚ) := by
    exact_mod_cast q.pos
  have h1 : (1 : ℚ) ≤ q * q.den := by
    have : ((1 : ℤ) : ℚ) ≤ (q.num : ℚ) := by exact_mod_cast hnum
    calc (1 : ℚ) ≤ (q.num : ℚ) := by exact_mod_cast hnum
    _ = q * q.den := (Rat.mul_den_eq_num q).symm
  calc ((1 : ℤ) : ℚ) = 1 := by norm_num
  _ ≤ q * q.den := h1
  _ ≤ q * 10 ^ decExp q.den := by
      apply mul_le_mul_of_nonneg_left _ hq.le
      calc (q.den : ℚ) ≤ ((10 ^ decExp q.den : ℕ) : ℚ) := by
            exact_mod_cast den_le_pow_decExp q
      _ = (10 : ℚ) ^ decExp q.den := by push_cast; ring

/-- When the denominator divides 10^k, the scaled floor is exact. -/
theorem floor_scaled_exact (q : ℚ) (hq : 0 < q) (k : ℕ)
    (hdvd : q.den ∣ 10 ^ k) :
    (((⌊q * 10 ^ k⌋).toNat : ℕ) : ℚ) = q * 10 ^ k := by
  obtain ⟨t, ht⟩ := hdvd
  have hden : ((q.den : ℚ)) ≠ 0 := by
    exact_mod_cast q.pos.ne'
  have h10 : ((10 : ℚ)) ^ k = (q.den : ℚ) * (t : ℚ) := by
    have h := congrArg (fun m : ℕ => (m : ℚ)) ht
    push_cast at h
    exact h
  have hqden : q * (q.den : ℚ) = (q.num : ℚ) := Rat.mul_den_eq_num q
  have hmul : q * 10 ^ k = ((q.num * t : ℤ) : ℚ) := by
    rw [h10, ← mul_assoc, hqden]
    push_cast
    ring
  have hfloor : ⌊q * 10 ^ k⌋ = q.num * t := by
    rw [hmul, Int.floor_intCast]
  have hpos : (0 : ℤ) ≤ q.num * t := by
    have hx : (0 : ℚ) < q * 10 ^ k := by positivity
    rw [hmul] at hx
    exact_mod_cast hx.le
  rw [hfloor, hmul]
  exact_mod_cast congrArg (fun z : ℤ => (z : ℚ)) (Int.toNat_of_nonneg hpos)

/-- Round trip for the values JS numbers can take: printing a positive
terminating-decimal rational and parsing it back is the identity. -/
theorem jsParseFloat_jsToString_pos (q : ℚ) (hq : 0 < q)
    (hdec : IsDecimalRat q) :
    jsParseFloat (JSNum.num q).jsToString = JSNum.num q := by
  show jsParseFloat (ratToString q) = _
  rw [jsParseFloat_ratToString q hq]
  have hdvd : q.den ∣ 10 ^ decExp q.den := Nat.dvd_of_mod_eq_zero hdec
  rw [floor_scaled_exact q hq _ hdvd]
  congr 1
  have hne : ((10 ^ decExp q.den : ℕ) : ℚ) ≠ 0 := by positivity
  rw [div_eq_iff hne]
  congr 1
  push_cast
  ring

/-- Printing any positive rational and parsing it back always yields a
strictly positive value (even off the terminating-decimal values, where
the printed form is a truncation). -/
theorem jsParseFloat_ratToString_pos (q : ℚ) (hq : 0 < q) :
    JSNum.jsLt (JSNum.num 0) (jsParseFloat (ratToString q)) = true := by
  rw [jsParseFloat_ratToString q hq]
  simp only [JSNum.jsLt, decide_eq_true_eq]
  apply div_pos
  · have h1 := floor_scaled_pos q hq
    have h2 : (1 : ℕ) ≤ (⌊q * 10 ^ decExp q.den⌋).toNat := by omega
    exact_mod_cast Nat.lt_of_lt_of_le Nat.zero_lt_one h2
  · have : (0 : ℕ) < 10 ^ decExp q.den := pow_pos (by norm_num) _
    exact_mod_cast this

/-- The printed form of a positive rational is never the empty string. -/
theorem ratToString_ne_empty (q : ℚ) : ratToString q ≠ "" := by
  intro h
  have hdata : (ratToString q).data = [] := by rw [h]
  unfold ratToString at hdata
  simp only [List.append_eq_nil, List.map_eq_nil_iff] at hdata
  exact digitsBE_ne_nil _ hdata.1.2

/-- Parsing the printed form of positive infinity gives it back. -/
theorem jsParseFloat_infinity : jsParseFloat "Infinity" = JSNum.posInf := by
  decide

/-- A sample bounding rectangle. -/
def sampleRect : Rect :=
  { left := 0, top := 0, right := 100, bottom := 100 }

/-- A sample video element in its initial state. -/
def sampleVideo : Video :=
  { id := 0, playbackRate := JSNum.num 1, preferredRateStr := none,
    paused := false, src := none, enhanced := false, rect := sampleRect }

/-- A sample registration as the factory creates it. -/
def sampleData : ControllerData := newControllerData 0

/-- A sample video carrying a stored preferred rate of 2. -/
def sampleVideoPref : Video :=
  { sampleVideo with preferredRateStr := some "2" }

/-- A sample blob-sourced video (as on primevideo.com). -/
def sampleBlobVideo : Video :=
  { sampleVideo with id := 1, src := some "blob:abc" }

/-- A sample already-enhanced blob-sourced video. -/
def sampleEnhancedBlobVideo : Video :=
  { sampleBlobVideo with enhanced := true }

/-- A sample src-attribute mutation record targeting a video. -/
def sampleSrcMutation : MutationInfo :=
  { mutType := "attributes", attrName := some "src", targetIsVideo := true }

/-- A sample page whose only video is already enhanced. -/
def sampleEnhancedPage : PageState :=
  { host := "example.com", videos := [sampleEnhancedBlobVideo],
    registry := [], docPanels := [], nextPanelId := 0 }

/-- The validation guard of applyPlaybackRate is false on finite positive
rates. -/
theorem guard_false_of_pos (q : ℚ) (hq : 0 < q) :
    ((JSNum.num q).isNaN || JSNum.jsLe (JSNum.num q) (JSNum.num 0)) = false := by
  simp [JSNum.isNaN, JSNum.jsLe, not_le.mpr hq]

/-- When the guard passes, applyPlaybackRate rewrites exactly the live
rate and the stored preferred-rate string of the video. -/
theorem apply_accept_video (v : Video) (reg : Option ControllerData) (r : JSNum)
    (hguard : (r.isNaN || JSNum.jsLe r (JSNum.num 0)) = false) :
    (applyPlaybackRate v reg r).1 =
      { v with playbackRate := r, preferredRateStr := some r.jsToString } := by
  unfold applyPlaybackRate
  rw [if_neg (by simp [hguard])]
  cases reg <;> rfl

/-- When the guard passes and a registration exists, applyPlaybackRate
rewrites exactly the registration's dropdown and custom input. -/
theorem apply_accept_reg (v : Video) (d : ControllerData) (r : JSNum)
    (hguard : (r.isNaN || JSNum.jsLe r (JSNum.num 0)) = false) :
    (applyPlaybackRate v (some d) r).2 =
      some { d with selector := updateSpeedSelector d.selector r,
                    customInputValue := r.jsToString } := by
  unfold applyPlaybackRate
  rw [if_neg (by simp [hguard])]

/-- applyPlaybackRate never touches the video fields other than the live
rate and the stored preferred rate. -/
theorem apply_other_fields (v : Video) (reg : Option ControllerData) (r : JSNum) :
    (applyPlaybackRate v reg r).1.enhanced = v.enhanced ∧
    (applyPlaybackRate v reg r).1.id = v.id := by
  unfold applyPlaybackRate
  split
  · exact ⟨rfl, rfl⟩
  · cases reg <;> exact ⟨rfl, rfl⟩

/-- updateSpeedSelector on the factory-built option list: it keeps the
options and selects the first option whose value parses strictly equal to
the rate, falling back to the synthetic "custom" entry at index 8. -/
theorem updateSpeedSelector_std (sel : Selector) (r : JSNum)
    (hopts : sel.options = standardOptionValues) :
    (updateSpeedSelector sel r).options = standardOptionValues ∧
    (updateSpeedSelector sel r).selectedIndex =
      (standardOptionValues.findIdx?
        (fun o => JSNum.jsEqNum (jsParseFloat o) r)).getD 8 := by
  unfold updateSpeedSelector
  rw [hopts]
  cases hfind : standardOptionValues.findIdx?
      (fun o => JSNum.jsEqNum (jsParseFloat o) r) with
  | some i =>
    exact ⟨rfl, rfl⟩
  | none =>
    have h8 : standardOptionValues.findIdx? (fun o => o = "custom") = some 8 := by
      decide
    simp only [Option.getD_none]
    simp [selectorSetValue, hopts, h8,
      (by decide : standardOptionValues.contains "custom" = true),
      show "custom" ∈ standardOptionValues by decide]

/-- A video whose live rate strictly equals its parsed stored rate is a
fixed point of both enforcement handlers. -/
theorem enforcer_fixed (v : Video) (s : String)
    (hpref : v.preferredRateStr = some s)
    (heq : JSNum.jsEqNum v.playbackRate (jsParseFloat s) = true) :
    playHandler v = v ∧ intervalTick v = v := by
  refine ⟨?_, ?_⟩ <;> simp [playHandler, intervalTick, hpref, heq]

/-- The play handler never touches the stored preferred rate. -/
theorem playHandler_pref (v : Video) :
    (playHandler v).preferredRateStr = v.preferredRateStr := by
  unfold playHandler
  split
  · rfl
  · split
    · rfl
    · dsimp only
      split <;> rfl

/-- The periodic check never touches the stored preferred rate. -/
theorem intervalTick_pref (v : Video) :
    (intervalTick v).preferredRateStr = v.preferredRateStr := by
  unfold intervalTick
  split
  · rfl
  · split
    · rfl
    · dsimp only
      split <;> rfl

/-- checkForSrcChanges never touches the video's stored preferred rate
(it only clears the enhanced marker). -/
theorem checkForSrc_pref (host : String) (m : MutationInfo) (v : Video)
    (reg : Option ControllerData) (panels : List ℕ) :
    (checkForSrcChanges host m v reg panels).1.preferredRateStr =
      v.preferredRateStr := by
  unfold checkForSrcChanges
  split
  · rfl
  · split
    · rfl
    · dsimp only
      split
      · rfl
      · split
        · split <;> rfl
        · rfl

/-- The preferred-rate invariant on a video: whenever the
dataset.preferredRate attribute is present, its parsed value is strictly
positive under the JS comparison (which also rules out NaN). -/
def PrefInvariant (v : Video) : Prop :=
  ∀ s, v.preferredRateStr = some s →
    JSNum.jsLt (JSNum.num 0) (jsParseFloat s) = true

/-- applyPlaybackRate preserves the preferred-rate invariant: a rejected
rate changes nothing, and an accepted rate (finite positive or positive
infinity) stores a string that parses strictly positive. -/
theorem apply_pref_invariant (v : Video) (reg : Option ControllerData)
    (r : JSNum) (h : PrefInvariant v) :
    PrefInvariant (applyPlaybackRate v reg r).1 := by
  by_cases hguard : (r.isNaN || JSNum.jsLe r (JSNum.num 0)) = true
  · unfold applyPlaybackRate
    rw [if_pos hguard]
    exact h
  · have hguard2 : (r.isNaN || JSNum.jsLe r (JSNum.num 0)) = false := by
      simp only [Bool.not_eq_true] at hguard
      exact hguard
    rw [apply_accept_video v reg r hguard2]
    have hstore : JSNum.jsLt (JSNum.num 0) (jsParseFloat r.jsToString) = true := by
      cases r with
      | nan => exact absurd (by simp [JSNum.isNaN]) hguard
      | negInf => exact absurd (by simp [JSNum.isNaN, JSNum.jsLe]) hguard
      | posInf =>
        have hstr : JSNum.posInf.jsToString = "Infinity" := rfl
        rw [hstr, jsParseFloat_infinity]
        rfl
      | num q =>
        have hq : 0 < q := by
          rcases le_or_lt q 0 with hle | hlt
          · exact absurd (by simp [JSNum.isNaN, JSNum.jsLe, hle]) hguard
          · exact hlt
        exact jsParseFloat_ratToString_pos q hq
    intro s hs
    have hs2 : some r.jsToString = some s := hs
    injection hs2 with hs3
    rw [← hs3]
    exact hstore

/-- Membership in the videos of a processed state: every entry either
carries the enhanced marker or is an untouched entry of the previous
state whose id differs from the processed video's. -/
theorem processVideo_mem (st : PageState) (v w : Video)
    (hw : w ∈ (processVideo st v).videos) :
    w.enhanced = true ∨ (w ∈ st.videos ∧ w.id ≠ v.id) := by
  unfold processVideo at hw
  by_cases hsh : shouldAddController st.host v
  · rw [if_neg (by simp [hsh])] at hw
    simp only [List.mem_map] at hw
    obtain ⟨u, hu, hue⟩ := hw
    by_cases hid : u.id = v.id
    · rw [if_pos hid] at hue
      left
      rw [← hue]
      split
      · rw [(apply_other_fields _ _ _).1]
      · rfl
    · rw [if_neg hid] at hue
      right
      rw [← hue]
      exact ⟨hu, hid⟩
  · rw [if_pos (by simp [hsh])] at hw
    simp only [List.mem_map] at hw
    obtain ⟨u, hu, hue⟩ := hw
    by_cases hid : u.id = v.id
    · rw [if_pos hid] at hue
      left
      rw [← hue]
    · rw [if_neg hid] at hue
      right
      rw [← hue]
      exact ⟨hu, hid⟩

/-- processVideo preserves the preferred-rate invariant across the whole
video list, since the only write it performs goes through
applyPlaybackRate. -/
theorem processVideo_pref (st : PageState) (v : Video)
    (hall : ∀ w ∈ st.videos, PrefInvariant w) (hv : PrefInvariant v) :
    ∀ w ∈ (processVideo st v).videos, PrefInvariant w := by
  intro w hw
  unfold processVideo at hw
  by_cases hsh : shouldAddController st.host v
  · rw [if_neg (by simp [hsh])] at hw
    simp only [List.mem_map] at hw
    obtain ⟨u, hu, hue⟩ := hw
    by_cases hid : u.id = v.id
    · rw [if_pos hid] at hue
      rw [← hue]
      split
      · exact apply_pref_invariant _ _ _ hv
      · exact hv
    · rw [if_neg hid] at hue
      rw [← hue]
      exact hall u hu
  · rw [if_pos (by simp [hsh])] at hw
    simp only [List.mem_map] at hw
    obtain ⟨u, hu, hue⟩ := hw
    by_cases hid : u.id = v.id
    · rw [if_pos hid] at hue
      rw [← hue]
      exact hall u hu
    · rw [if_neg hid] at hue
      rw [← hue]
      exact hall u hu

/-- Folding processVideo over a pending list preserves the preferred-rate
invariant. -/
theorem scan_pref_invariant (pending : List Video) :
    ∀ st : PageState, (∀ w ∈ st.videos, PrefInvariant w) →
    (∀ u ∈ pending, PrefInvariant u) →
    ∀ w ∈ (pending.foldl processVideo st).videos, PrefInvariant w := by
  induction pending with
  | nil => intro st hall _ w hw; exact hall w hw
  | cons v rest ih =>
    intro st hall hpend w hw
    exact ih (processVideo st v)
      (processVideo_pref st v hall (hpend v (by simp)))
      (fun u hu => hpend u (by simp [hu])) w hw

/-- Folding processVideo over a pending list covering every unenhanced
video leaves every video enhanced. -/
theorem scan_enhanced_aux (pending : List Video) :
    ∀ st : PageState,
    (∀ w ∈ st.videos, w.enhanced = true ∨ ∃ u ∈ pending, u.id = w.id) →
    ∀ w ∈ (pending.foldl processVideo st).videos, w.enhanced = true := by
  induction pending with
  | nil =>
    intro st hinv w hw
    rcases hinv w hw with h | ⟨u, hu, -⟩
    · exact h
    · simp at hu
  | cons v rest ih =>
    intro st hinv w hw
    refine ih (processVideo st v) ?_ w hw
    intro w2 hw2
    rcases processVideo_mem st v w2 hw2 with h | ⟨hmem, hne⟩
    · exact Or.inl h
    · rcases hinv w2 hmem with h | ⟨u, hu, huid⟩
      · exact Or.inl h
      · rcases List.mem_cons.mp hu with rfl | hu2
        · exact absurd huid.symm hne
        · exact Or.inr ⟨u, hu2, huid⟩

/-- C1 (counterexample): at rate = +Infinity, which is not a finite
number, applyPlaybackRate is not a no-op: isNaN(Infinity) is false and
Infinity <= 0 is false, so the guard passes and both the live rate and
the stored preferred rate are overwritten. -/
theorem C1_counterexample :
    applyPlaybackRate sampleVideo none JSNum.posInf ≠ (sampleVideo, none) := by
  decide

/-- C1 (amended): applyPlaybackRate is a silent no-op exactly on the
rates its guard rejects, namely NaN and every rate <= 0 under the JS
comparison (zero, negatives, -Infinity): the video's live rate, its
stored preferred rate, and the registration are left unchanged, so no
dropdown or input reflection occurs.  Positive Infinity is not rejected. -/
theorem C1_apply_noop_on_rejected (v : Video) (reg : Option ControllerData)
    (r : JSNum) (h : r.isNaN = true ∨ JSNum.jsLe r (JSNum.num 0) = true) :
    applyPlaybackRate v reg r = (v, reg) := by
  unfold applyPlaybackRate
  rcases h with h | h <;> simp [h]

/-- Witness for C1: the amended no-op theorem applied at rate NaN. -/
theorem C1_witness :
    applyPlaybackRate sampleVideo none JSNum.nan = (sampleVideo, none) :=
  C1_apply_noop_on_rejected sampleVideo none JSNum.nan (Or.inl rfl)

/-- C2: for every registered video and finite rate r > 0,
applyPlaybackRate sets the live playbackRate to r, records r.toString()
as the preferred rate on the video element, reflects r into the numeric
input field, and selects in the dropdown the first option whose value
parses strictly equal to r, or the synthetic "custom" option (index 8)
when no preset matches. -/
theorem C2_apply_sets_and_reflects (v : Video) (d : ControllerData) (q : ℚ)
    (hq : 0 < q) (hopts : d.selector.options = standardOptionValues) :
    ∃ d2,
      applyPlaybackRate v (some d) (JSNum.num q) =
        ({ v with playbackRate := JSNum.num q,
                  preferredRateStr := some (JSNum.num q).jsToString }, some d2) ∧
      d2.customInputValue = (JSNum.num q).jsToString ∧
      d2.selector.options = standardOptionValues ∧
      d2.selector.selectedIndex =
        (standardOptionValues.findIdx?
          (fun o => JSNum.jsEqNum (jsParseFloat o) (JSNum.num q))).getD 8 := by
  have hguard := guard_false_of_pos q hq
  refine ⟨{ d with selector := updateSpeedSelector d.selector (JSNum.num q),
                   customInputValue := (JSNum.num q).jsToString },
    ?_, rfl, ?_, ?_⟩
  · have h1 := apply_accept_video v (some d) (JSNum.num q) hguard
    have h2 := apply_accept_reg v d (JSNum.num q) hguard
    calc applyPlaybackRate v (some d) (JSNum.num q)
        = ((applyPlaybackRate v (some d) (JSNum.num q)).1,
           (applyPlaybackRate v (some d) (JSNum.num q)).2) := rfl
    _ = _ := by rw [h1, h2]
  · exact (updateSpeedSelector_std d.selector (JSNum.num q) hopts).1
  · exact (updateSpeedSelector_std d.selector (JSNum.num q) hopts).2

/-- Witness for C2: the theorem applied at the non-preset rate 1.5. -/
theorem C2_witness :
    ∃ d2,
      applyPlaybackRate sampleVideo (some sampleData) (JSNum.num (3 / 2)) =
        ({ sampleVideo with playbackRate := JSNum.num (3 / 2), preferredRateStr := some (JSNum.num (3 / 2)).jsToString }, some d2) ∧
      d2.customInputValue = (JSNum.num (3 / 2)).jsToString ∧
      d2.selector.options = standardOptionValues ∧
      d2.selector.selectedIndex =
        (standardOptionValues.findIdx?
          (fun o => JSNum.jsEqNum (jsParseFloat o) (JSNum.num (3 / 2)))).getD 8 :=
  C2_apply_sets_and_reflects sampleVideo sampleData (3 / 2) (by norm_num) rfl

/-- C3: on a play event or an interval tick, a managed video with a
stored (non-empty) preferred rate whose live rate strictly differs from
the parsed stored value has its live rate forced back to the parsed
value (the tick only while unpaused); when the rates already agree, when
the preferred rate is unset or empty, or (for the tick) while paused,
nothing changes. -/
theorem C3_enforcement :
    (∀ (v : Video) (s : String), v.preferredRateStr = some s → s ≠ "" →
      JSNum.jsEqNum v.playbackRate (jsParseFloat s) = false →
        (playHandler v).playbackRate = jsParseFloat s ∧
        (v.paused = false → (intervalTick v).playbackRate = jsParseFloat s)) ∧
    (∀ (v : Video) (s : String), v.preferredRateStr = some s → s ≠ "" →
      JSNum.jsEqNum v.playbackRate (jsParseFloat s) = true →
        playHandler v = v ∧ intervalTick v = v) ∧
    (∀ v : Video, v.preferredRateStr = none ∨ v.preferredRateStr = some "" →
        playHandler v = v ∧ intervalTick v = v) ∧
    (∀ v : Video, v.paused = true → intervalTick v = v) := by
  refine ⟨?_, ?_, ?_, ?_⟩
  · intro v s hp hs hne
    constructor
    · simp [playHandler, hp, hs, hne]
    · intro hpause
      simp [intervalTick, hp, hs, hne, hpause]
  · intro v s hp heq
    exact fun h => enforcer_fixed v s hp h
  · intro v h
    rcases h with h | h
    · constructor <;> simp [playHandler, intervalTick, h]
    · constructor <;> simp [playHandler, intervalTick, h]
  · intro v hpause
    unfold intervalTick
    split
    · rfl
    · rw [if_pos (Or.inr hpause)]

/-- Witness for C3: a video with preferred rate "2" and live rate 1 is
corrected by the play handler and the tick. -/
theorem C3_witness :
    (playHandler sampleVideoPref).playbackRate = jsParseFloat "2" ∧
    (sampleVideoPref.paused = false →
      (intervalTick sampleVideoPref).playbackRate = jsParseFloat "2") :=
  C3_enforcement.1 sampleVideoPref "2" rfl (by decide) (by decide)

/-- C4: for hostnames whose dot-separated labels are all nonempty, the
base domain the code resolves (regex capture with verbatim fallback)
equals the spec's "last two labels, verbatim when fewer than two", and
shouldAddController delegates to the primevideo.com rule (src starts
with "blob:", missing src read as empty) exactly when that base domain
is primevideo.com, returning true for every video on all other
domains. -/
theorem C4_matcher (host : String) (v : Video)
    (hlab : ∀ l ∈ hostLabels host, l ≠ []) :
    (baseDomainMatch host).getD host = specBaseDomain host ∧
    shouldAddController host v =
      (if specBaseDomain host = "primevideo.com" then
        strStartsWith (v.src.getD "") "blob:" else true) := by
  have hbase : (baseDomainMatch host).getD host = specBaseDomain host := by
    unfold baseDomainMatch specBaseDomain
    cases h : (hostLabels host).reverse with
    | nil => simp
    | cons a t =>
      cases t with
      | nil => simp
      | cons b t2 =>
        have ha : a ≠ [] := by
          refine hlab a ?_
          rw [← List.mem_reverse, h]
          simp
        have hb : b ≠ [] := by
          refine hlab b ?_
          rw [← List.mem_reverse, h]
          simp
        simp [ha, hb]
  refine ⟨hbase, ?_⟩
  by_cases hpv : specBaseDomain host = "primevideo.com"
  · rw [if_pos hpv]
    unfold shouldAddController getCurrentSite
    rw [hbase, hpv]
    simp [siteRules, primeVideoShouldAddController]
  · rw [if_neg hpv]
    unfold shouldAddController getCurrentSite
    rw [hbase]
    simp [siteRules, hpv]

/-- Witness for C4: the scenario domain www.primevideo.com with a
blob-sourced video. -/
theorem C4_witness :
    (baseDomainMatch "www.primevideo.com").getD "www.primevideo.com" =
      specBaseDomain "www.primevideo.com" ∧
    shouldAddController "www.primevideo.com" sampleBlobVideo =
      (if specBaseDomain "www.primevideo.com" = "primevideo.com" then
        strStartsWith (sampleBlobVideo.src.getD "") "blob:" else true) :=
  C4_matcher "www.primevideo.com" sampleBlobVideo (by decide)

/-- C5: a pointer-move dispatch updates every registration in place: a
pointer inside the video's rectangle makes the controller visible and
resets the 2000ms hide countdown (whose expiry hides only non-sticky
controllers); a pointer outside hides a visible non-sticky controller
immediately; and a sticky controller is never transitioned to hidden by
either the move or the timer expiry. -/
theorem C5_visibility :
    (∀ (mx my : ℚ) (reg : List (Video × ControllerData)) (i : ℕ)
        (hi : i < reg.length)
        (hi2 : i < (updateControllerVisibility mx my reg).length),
      (updateControllerVisibility mx my reg).get ⟨i, hi2⟩ =
        ((reg.get ⟨i, hi⟩).1,
          updateOneVisibility mx my (reg.get ⟨i, hi⟩).1 (reg.get ⟨i, hi⟩).2)) ∧
    (∀ (mx my : ℚ) (v : Video) (d : ControllerData),
      (isMouseOver mx my v.rect = true →
        (updateOneVisibility mx my v d).visible = true ∧
        (updateOneVisibility mx my v d).hideTimer = some 2000) ∧
      (isMouseOver mx my v.rect = false → d.visible = true →
        d.isSticky = false →
        (updateOneVisibility mx my v d).visible = false) ∧
      (d.isSticky = true → d.visible = true →
        (updateOneVisibility mx my v d).visible = true)) ∧
    (∀ d : ControllerData,
      (d.isSticky = false → (fireHideTimer d).visible = false) ∧
      (d.isSticky = true → fireHideTimer d = d)) := by
  refine ⟨?_, ?_, ?_⟩
  · intro mx my reg i hi hi2
    simp [updateControllerVisibility, List.get_eq_getElem, List.getElem_map]
  · intro mx my v d
    refine ⟨?_, ?_, ?_⟩
    · intro h
      unfold updateOneVisibility
      rw [if_pos h]
      exact ⟨rfl, rfl⟩
    · intro h hv hs
      unfold updateOneVisibility
      rw [if_neg (by simp [h]), if_pos (by simp [hv, hs])]
    · intro hs hv
      unfold updateOneVisibility
      split
      · rfl
      · rw [if_neg (by simp [hs])]
        exact hv
  · intro d
    refine ⟨?_, ?_⟩
    · intro h
      simp [fireHideTimer, h]
    · intro h
      simp [fireHideTimer, h]

/-- Witness for C5: with the pointer at (5,5), inside the sample video's
rectangle, the controller becomes visible and the countdown is reset. -/
theorem C5_witness :
    (updateOneVisibility 5 5 sampleVideo sampleData).visible = true ∧
    (updateOneVisibility 5 5 sampleVideo sampleData).hideTimer = some 2000 :=
  (C5_visibility.2.1 5 5 sampleVideo sampleData).1 (by decide)

/-- C6: on a site with an active rule, a src mutation on an enhanced
video is re-evaluated: newly qualifying without a registration clears
the enhanced marker and requests a rescan; newly disqualifying with a
registration removes its panel from the document and deletes the
registration without requesting a rescan; and src changes on
non-enhanced videos or on sites without a rule change nothing. -/
theorem C6_src_change_reconciliation :
    (∀ (host : String) (m : MutationInfo) (v : Video)
        (reg : Option ControllerData) (panels : List ℕ),
      (getCurrentSite host).isSome = true →
      m.mutType = "attributes" → m.attrName = some "src" →
      m.targetIsVideo = true → v.enhanced = true →
      ((shouldAddController host v = true → reg = none →
          checkForSrcChanges host m v reg panels =
            ({ v with enhanced := false }, none, panels, true)) ∧
       (∀ d, shouldAddController host v = false → reg = some d →
          checkForSrcChanges host m v reg panels =
            (v, none, panels.erase d.panelId, false)))) ∧
    (∀ (host : String) (m : MutationInfo) (v : Video)
        (reg : Option ControllerData) (panels : List ℕ),
      v.enhanced = false →
      checkForSrcChanges host m v reg panels = (v, reg, panels, false)) ∧
    (∀ (host : String) (m : MutationInfo) (v : Video)
        (reg : Option ControllerData) (panels : List ℕ),
      getCurrentSite host = none →
      checkForSrcChanges host m v reg panels = (v, reg, panels, false)) := by
  refine ⟨?_, ?_, ?_⟩
  · intro host m v reg panels hsome hm1 hm2 hm3 henh
    have hcond : ¬ ((getCurrentSite host).isNone = true ∨
        m.mutType ≠ "attributes" ∨ m.attrName ≠ some "src" ∨
        m.targetIsVideo = false) := by
      rcases Option.isSome_iff_exists.mp hsome with ⟨site, hsite⟩
      simp [hsite, hm1, hm2, hm3]
    constructor
    · intro hsh hreg
      subst hreg
      unfold checkForSrcChanges
      rw [if_neg hcond, if_neg (by simp [henh])]
      dsimp only
      rw [if_pos (by simp [hsh])]
    · intro d hsh hreg
      subst hreg
      unfold checkForSrcChanges
      rw [if_neg hcond, if_neg (by simp [henh])]
      dsimp only
      rw [if_neg (by simp [hsh]), if_pos (by simp [hsh])]
  · intro host m v reg panels henh
    unfold checkForSrcChanges
    split
    · rfl
    · rfl
  · intro host m v reg panels hnone
    unfold checkForSrcChanges
    rw [if_pos (by simp [hnone])]

/-- Witness for C6: on www.primevideo.com, a src mutation on an enhanced
blob-sourced video without a registration clears its marker and requests
a rescan. -/
theorem C6_witness :
    checkForSrcChanges "www.primevideo.com" sampleSrcMutation
        sampleEnhancedBlobVideo none [] =
      ({ sampleEnhancedBlobVideo with enhanced := false }, none, [], true) :=
  (C6_src_change_reconciliation.1 "www.primevideo.com" sampleSrcMutation
      sampleEnhancedBlobVideo none [] (by decide) rfl rfl rfl rfl).1
    (by decide) rfl

/-- C7: the scan only processes videos lacking the enhanced marker and
marks every processed video whether or not a controller is attached, so
after any scan every video is enhanced, and a scan over a document whose
videos are all enhanced is a strict no-op: no new panel, no new
registration, no state change at all. -/
theorem C7_scan_idempotent :
    (∀ s : PageState, ∀ v ∈ (initVideoSpeedControl s).videos,
      v.enhanced = true) ∧
    (∀ s : PageState, (∀ v ∈ s.videos, v.enhanced = true) →
      initVideoSpeedControl s = s) := by
  constructor
  · intro s v hv
    refine scan_enhanced_aux _ s ?_ v hv
    intro w hw
    by_cases he : w.enhanced = true
    · exact Or.inl he
    · right
      refine ⟨w, ?_, rfl⟩
      rw [List.mem_filter]
      exact ⟨hw, by simp [he]⟩
  · intro s h
    unfold initVideoSpeedControl
    have hfilter : s.videos.filter (fun v => !v.enhanced) = [] := by
      apply List.filter_eq_nil_iff.mpr
      intro a ha
      simp [h a ha]
    rw [hfilter]
    rfl

/-- Witness for C7: a page whose only video is enhanced is untouched by
a rescan. -/
theorem C7_witness :
    initVideoSpeedControl sampleEnhancedPage = sampleEnhancedPage :=
  C7_scan_idempotent.2 sampleEnhancedPage (by decide)

/-- C8: each handler that looks its video up in the activeVideos map
(the panel's pointer-enter sticky toggle, the pointer-leave handler, the
one-second creation-flash timeout) aborts with no state change at all
when the registration is missing at dispatch time. -/
theorem C8_missing_registration_aborts (vid : ℕ)
    (reg : List (Video × ControllerData)) (mx my : ℚ)
    (h : regFind reg vid = none) :
    controllerMouseEnter vid reg = reg ∧
    controllerMouseLeave mx my vid reg = reg ∧
    flashTimeoutFire vid reg = reg := by
  refine ⟨?_, ?_, ?_⟩
  · unfold controllerMouseEnter
    rw [h]
  · unfold controllerMouseLeave
    rw [h]
  · unfold flashTimeoutFire
    rw [h]

/-- Witness for C8: all three handlers leave the empty registration map
unchanged. -/
theorem C8_witness :
    controllerMouseEnter 0 [] = [] ∧ controllerMouseLeave 0 0 0 [] = [] ∧
    flashTimeoutFire 0 [] = [] :=
  C8_missing_registration_aborts 0 [] 0 0 rfl

/-- C9: the preferred-rate invariant — whenever the attribute is present
its parsed value is strictly positive — is established and preserved by
applyPlaybackRate (the only writer), while the enforcement handlers, the
src-change reconciler, and the document scan never violate it. -/
theorem C9_preferred_rate_invariant :
    (∀ (v : Video) (reg : Option ControllerData) (r : JSNum),
      PrefInvariant v → PrefInvariant (applyPlaybackRate v reg r).1) ∧
    (∀ v : Video, (playHandler v).preferredRateStr = v.preferredRateStr ∧
      (intervalTick v).preferredRateStr = v.preferredRateStr) ∧
    (∀ (host : String) (m : MutationInfo) (v : Video)
        (reg : Option ControllerData) (panels : List ℕ),
      (checkForSrcChanges host m v reg panels).1.preferredRateStr =
        v.preferredRateStr) ∧
    (∀ s : PageState, (∀ w ∈ s.videos, PrefInvariant w) →
      ∀ w ∈ (initVideoSpeedControl s).videos, PrefInvariant w) := by
  refine ⟨apply_pref_invariant,
    fun v => ⟨playHandler_pref v, intervalTick_pref v⟩,
    checkForSrc_pref, ?_⟩
  intro s hall w hw
  refine scan_pref_invariant _ s hall ?_ w hw
  intro u hu
  exact hall u (List.mem_of_mem_filter hu)

/-- Witness for C9: applying NaN to a pristine video preserves the
invariant. -/
theorem C9_witness :
    PrefInvariant (applyPlaybackRate sampleVideo none JSNum.nan).1 :=
  C9_preferred_rate_invariant.1 sampleVideo none JSNum.nan
    (fun _ hs => Option.noConfusion hs)

/-- C10: immediately after a successful apply of a finite rate r > 0
(with r a terminating-decimal value, as every JS double is), the live
rate is r, the stored preferred-rate string parses back to exactly r,
and both the play handler and the periodic tick leave the state fixed —
the enforcer never fights a rate the system itself applied. -/
theorem C10_apply_enforcer_roundtrip (v : Video) (reg : Option ControllerData)
    (q : ℚ) (hq : 0 < q) (hdec : IsDecimalRat q) :
    (applyPlaybackRate v reg (JSNum.num q)).1.playbackRate = JSNum.num q ∧
    (∃ s, (applyPlaybackRate v reg (JSNum.num q)).1.preferredRateStr = some s ∧
      jsParseFloat s = JSNum.num q) ∧
    playHandler (applyPlaybackRate v reg (JSNum.num q)).1 =
      (applyPlaybackRate v reg (JSNum.num q)).1 ∧
    intervalTick (applyPlaybackRate v reg (JSNum.num q)).1 =
      (applyPlaybackRate v reg (JSNum.num q)).1 := by
  have hguard := guard_false_of_pos q hq
  have hv1 := apply_accept_video v reg (JSNum.num q) hguard
  have hparse : jsParseFloat (JSNum.num q).jsToString = JSNum.num q :=
    jsParseFloat_jsToString_pos q hq hdec
  have hpref : (applyPlaybackRate v reg (JSNum.num q)).1.preferredRateStr =
      some (JSNum.num q).jsToString := by rw [hv1]
  have hrate : (applyPlaybackRate v reg (JSNum.num q)).1.playbackRate =
      JSNum.num q := by rw [hv1]
  have heq : JSNum.jsEqNum
      ((applyPlaybackRate v reg (JSNum.num q)).1.playbackRate)
      (jsParseFloat (JSNum.num q).jsToString) = true := by
    rw [hrate, hparse]
    simp [JSNum.jsEqNum]
  obtain ⟨hfix1, hfix2⟩ := enforcer_fixed _ _ hpref heq
  exact ⟨hrate, ⟨_, hpref, hparse⟩, hfix1, hfix2⟩

/-- Witness for C10: the round trip at rate 2. -/
theorem C10_witness :
    (applyPlaybackRate sampleVideo none (JSNum.num 2)).1.playbackRate =
      JSNum.num 2 ∧
    (∃ s, (applyPlaybackRate sampleVideo none (JSNum.num 2)).1.preferredRateStr =
      some s ∧ jsParseFloat s = JSNum.num 2) ∧
    playHandler (applyPlaybackRate sampleVideo none (JSNum.num 2)).1 =
      (applyPlaybackRate sampleVideo none (JSNum.num 2)).1 ∧
    intervalTick (applyPlaybackRate sampleVideo none (JSNum.num 2)).1 =
      (applyPlaybackRate sampleVideo none (JSNum.num 2)).1 :=
  C10_apply_enforcer_roundtrip sampleVideo none 2 (by decide) (by decide)
